import Mathlib

/-!
Verification of the fuse-rs fuzzy-search core against its specification.

The Rust sources under `crates/fuse-rs/src` are shallowly embedded:
strings are sequences of Unicode code points (`List Char`), `f64`
arithmetic on scores and weights is modelled exactly in `ℚ`, machine
integers are `Nat` (with explicit notes where Rust semantics differ),
fallible functions return `Except`/`Option`, and `while` loops are
fuel-indexed recursions with provably sufficient fuel.
-/

namespace Fuse

/-- Runtime options consumed by the searchers. Modelled from the spec:
the crate's `core/options/config.rs` is not among the sources, so the
field list and defaults follow the options table of the spec (§6).
Only fields read by the embedded functions are included; `f64` fields
are exact rationals. -/
structure FuseOptions where
  isCaseSensitive : Bool := false
  ignoreDiacritics : Bool := false
  includeMatches : Bool := false
  findAllMatches : Bool := false
  minMatchCharLength : Nat := 1
  location : Nat := 0
  threshold : ℚ := 6/10
  distance : Nat := 100
  ignoreLocation : Bool := false
  deriving Repr, DecidableEq

/-- Embedding of `compute_score`
(`search/bitmap/compute_score.rs`). The cast chain
`(expected as isize - current as isize).abs() as usize` is `Int.natAbs`
of the difference. For the empty pattern the Rust code computes
`0.0 / 0.0 = NaN`; in `ℚ` division by zero yields `0`, and every claim
about this function assumes a non-empty pattern. -/
def compute_score (pattern : List Char) (errors currentLocation expectedLocation : Nat)
    (options : FuseOptions) : ℚ :=
  let accuracy : ℚ := (errors : ℚ) / (pattern.length : ℚ)
  if options.ignoreLocation then accuracy
  else
    let proximity : Nat := ((expectedLocation : ℤ) - (currentLocation : ℤ)).natAbs
    if options.distance = 0 then
      (if proximity ≠ 0 then 1 else accuracy)
    else accuracy + (proximity : ℚ) / (options.distance : ℚ)

/-- The discriminated error type of the library
(`core/error_messages.rs`, `FuseError`). -/
inductive FuseError
  | extendedSearchUnavailable
  | logicalSearchUnavailable
  | incorrectIndexType
  | invalidLogicalQueryForKey (key : String)
  | patternLengthTooLarge (maxLen : Nat)
  | missingKeyProperty (name : String)
  | invalidKeyWeightValue (key : String)
  deriving Repr, DecidableEq

/-- Modelled from the spec: `search/bitmap/constants.rs` (defining
`MAX_BITS`) is not among the sources. The spec fixes the bitap word width
W = 32 (§4.6, §9 "existing records suggest W = 32") and the boundary
behaviour `PatternLengthTooLarge(32)` (§8). -/
def MAX_BITS : Nat := 32

/-- Result type of the searchers (`search/bitmap/search.rs`,
`SearchResult`). -/
structure SearchResult where
  is_match : Bool
  score : ℚ
  indices : Option (List (Nat × Nat))
  deriving Repr, DecidableEq

/-- Whether `pattern` occurs in `text` at code-point position `i`. -/
def occursAt (text pattern : List Char) (i : Nat) : Bool :=
  (text.drop i).take pattern.length == pattern

/-- Modelled from the spec: `helpers/str_ext.rs` (`StrExt::index_of`) is
not among the sources. Following the pre-pass of §4.6 ("repeatedly locate
P inside text starting at bestLocation"), this returns the first position
at or after `start` at which `pattern` occurs in `text`. -/
def index_of (text pattern : List Char) (start : Nat) : Option Nat :=
  (List.range (text.length + 1)).find? (fun i => decide (start ≤ i) && occursAt text pattern i)

/-- Sets `mask[index + i] := 1` for `i < len` (the match-mask marking of the
exact-match pre-pass; every write is in bounds there). -/
def setRun (mask : List Nat) (index len : Nat) : List Nat :=
  (List.range len).foldl (fun acc i => acc.set (index + i) 1) mask

/-- The exact-match pre-pass of `search` (`search/bitmap/search.rs` lines
52–63): repeatedly locate the pattern, lower the current threshold to the
scored hit, advance past the hit and mark the match mask. Fuel-indexed;
`text.length + 1` fuel is enough for a non-empty pattern because
`best_location` strictly increases, and with an empty pattern the Rust
loop never terminates. Returns the final threshold and mask
(`best_location` is reset to the sentinel right after the loop). -/
def fastPathLoop (text pattern : List Char) (expectedLocation : Nat)
    (opts : FuseOptions) (computeMatches : Bool) :
    Nat → Nat → ℚ → List Nat → ℚ × List Nat
  | 0, _, thr, mask => (thr, mask)
  | fuel + 1, bestLocation, thr, mask =>
    match index_of text pattern bestLocation with
    | none => (thr, mask)
    | some index =>
      let score := compute_score pattern 0 index expectedLocation opts
      let thr' := min score thr
      let best' := index + pattern.length
      let mask' := if computeMatches then setRun mask index pattern.length else mask
      fastPathLoop text pattern expectedLocation opts computeMatches fuel best' thr' mask'

/-- The displacement binary search at the top of each outer bitap iteration
(`search/bitmap/search.rs` lines 75–94). Fuel-indexed: the search gap
shrinks strictly from the second iteration on, so `binMax + 2` fuel always
reaches the loop exit. Returns the final `bin_mid`. -/
def binSearchLoop (pattern : List Char) (i expectedLocation : Nat) (opts : FuseOptions)
    (thr : ℚ) : Nat → Nat → Nat → Nat → Nat
  | 0, _, binMid, _ => binMid
  | fuel + 1, binMin, binMid, binMax =>
    if binMin < binMid then
      let score := compute_score pattern i (expectedLocation + binMid) expectedLocation opts
      let p := if score ≤ thr then (binMid, binMax) else (binMin, binMid)
      binSearchLoop pattern i expectedLocation opts thr fuel p.1 ((p.2 - p.1) / 2 + p.1) p.2
    else binMid

/-- State threaded through one descending sweep of the bitap main pass. -/
structure SweepState where
  bitArr : Nat → Nat
  finalScore : ℚ
  currentThreshold : ℚ
  bestLocation : Option Nat
  matchMask : List Nat

/-- One descending sweep of the bitap main pass (`search/bitmap/search.rs`
lines 114–159). `js` is the descending list `finish, finish−1, …, start`;
the Rust `for j in (start..=finish).rev()` fixes this range on entry, so
the reassignment of `start` at line 153 is dead and is omitted. Bit
arrays are total functions (unwritten positions read 0, as in the
zero-initialised Rust vectors, with the sentinel pre-set by the caller).
The u64 values never exceed 2^(m+1) for m ≤ W, so `Nat` models them
exactly. The absent-character case of the alphabet map is the mask 0
(`create_pattern_alphabet` never stores a zero mask). A `match_mask`
write out of bounds — reachable in Rust when `finish` exceeds the text
length while matches are computed, where it would abort the process — is
the no-op of `List.set`; no claim exercises that branch. -/
def sweepLoop (pattern : List Char) (text : List Char) (alphabet : Char → Nat)
    (opts : FuseOptions) (i expectedLocation : Nat) (computeMatches : Bool)
    (highBit : Nat) (lastBitArr : Nat → Nat) :
    List Nat → SweepState → SweepState
  | [], st => st
  | j :: js, st =>
    let currentLocation := j - 1
    let charMatch : Nat :=
      match text.get? currentLocation with
      | some c => alphabet c
      | none => 0
    let mask' :=
      if computeMatches then
        st.matchMask.set currentLocation (if charMatch ≠ 0 then 1 else 0)
      else st.matchMask
    let b1 := ((st.bitArr (j + 1)) <<< 1 ||| 1) &&& charMatch
    let b2 :=
      if 0 < i then
        b1 ||| ((((lastBitArr (j + 1)) ||| (lastBitArr j)) <<< 1) ||| 1 ||| lastBitArr (j + 1))
      else b1
    let bitArr' : Nat → Nat := fun k => if k = j then b2 else st.bitArr k
    if b2 &&& highBit ≠ 0 then
      let fs := compute_score pattern i currentLocation expectedLocation opts
      if fs ≤ st.currentThreshold then
        if currentLocation ≤ expectedLocation then
          { bitArr := bitArr', finalScore := fs, currentThreshold := fs,
            bestLocation := some currentLocation, matchMask := mask' }
        else
          sweepLoop pattern text alphabet opts i expectedLocation computeMatches highBit
            lastBitArr js
            { bitArr := bitArr', finalScore := fs, currentThreshold := fs,
              bestLocation := some currentLocation, matchMask := mask' }
      else
        sweepLoop pattern text alphabet opts i expectedLocation computeMatches highBit
          lastBitArr js
          { st with bitArr := bitArr', finalScore := fs, matchMask := mask' }
    else
      sweepLoop pattern text alphabet opts i expectedLocation computeMatches highBit
        lastBitArr js { st with bitArr := bitArr', matchMask := mask' }

/-- State threaded through the outer error-class loop of the bitap kernel. -/
structure OuterState where
  currentThreshold : ℚ
  bestLocation : Option Nat
  binMax : Nat
  lastBitArr : Nat → Nat
  finalScore : ℚ
  matchMask : List Nat

/-- The outer error-class loop of the bitap main pass
(`search/bitmap/search.rs` lines 74–174): for each error count
i = 0, …, m−1, bound the displacement by binary search, sweep positions
from high to low, then stop early when even a perfect further match
cannot beat the current threshold. `rem` counts the remaining error
classes (`m − i`). -/
def outerLoop (text pattern : List Char) (alphabet : Char → Nat) (opts : FuseOptions)
    (expectedLocation : Nat) (computeMatches : Bool) (highBit : Nat) :
    Nat → Nat → OuterState → OuterState
  | _, 0, st => st
  | i, rem + 1, st =>
    let binMid := binSearchLoop pattern i expectedLocation opts st.currentThreshold
      (st.binMax + 2) 0 st.binMax st.binMax
    let start := if binMid ≤ expectedLocation then expectedLocation - binMid + 1 else 1
    let finish :=
      if opts.findAllMatches then text.length
      else min (expectedLocation + binMid) text.length + pattern.length
    let bitArrInit : Nat → Nat := fun k => if k = finish + 1 then 2 ^ i - 1 else 0
    let js := (List.range' start (finish + 1 - start)).reverse
    let sw := sweepLoop pattern text alphabet opts i expectedLocation computeMatches highBit
      st.lastBitArr js
      { bitArr := bitArrInit, finalScore := st.finalScore,
        currentThreshold := st.currentThreshold, bestLocation := st.bestLocation,
        matchMask := st.matchMask }
    let score := compute_score pattern (i + 1) expectedLocation expectedLocation opts
    if score > sw.currentThreshold then
      { currentThreshold := sw.currentThreshold, bestLocation := sw.bestLocation,
        binMax := binMid, lastBitArr := st.lastBitArr, finalScore := sw.finalScore,
        matchMask := sw.matchMask }
    else
      outerLoop text pattern alphabet opts expectedLocation computeMatches highBit
        (i + 1) rem
        { currentThreshold := sw.currentThreshold, bestLocation := sw.bestLocation,
          binMax := binMid, lastBitArr := sw.bitArr, finalScore := sw.finalScore,
          matchMask := sw.matchMask }

/-- Embedding of `convert_mask_to_indices`
(`search/bitmap/convert_mask_to_indices.rs`). The `start = -1` sentinel is
`Option Nat`; the `isize` run-length arithmetic is exact here because a
run's start precedes the position that closes it. -/
def convert_mask_to_indices (matchMask : List Bool) (minMatchCharLength : Nat) :
    List (Nat × Nat) :=
  let fin := matchMask.enum.foldl
    (fun (acc : List (Nat × Nat) × Option Nat) p =>
      match acc.2, p.2 with
      | none, true => (acc.1, some p.1)
      | none, false => acc
      | some _, true => acc
      | some s, false =>
        if minMatchCharLength ≤ p.1 - s then (acc.1 ++ [(s, p.1 - 1)], none)
        else (acc.1, none))
    ([], none)
  match fin.2, matchMask.getLast? with
  | some s, some true =>
    if minMatchCharLength ≤ matchMask.length - s then
      fin.1 ++ [(s, matchMask.length - 1)]
    else fin.1
  | _, _ => fin.1

/-- The single-exit body of the bitap kernel `search`
(`search/bitmap/search.rs` lines 32–198, everything after the length
check). With an empty pattern the Rust code aborts computing
`1 << (pattern_length - 1)`; `Nat` subtraction makes the body total and no
claim depends on that case. -/
def search_body (text pattern : List Char) (alphabet : Char → Nat)
    (opts : FuseOptions) : SearchResult :=
  let patternLength := pattern.length
  let textLength := text.length
  let expectedLocation := min opts.location textLength
  let computeMatches := 1 < opts.minMatchCharLength || opts.includeMatches
  let matchMask0 : List Nat := if computeMatches then List.replicate textLength 0 else []
  let pre := fastPathLoop text pattern expectedLocation opts computeMatches
    (textLength + 1) expectedLocation opts.threshold matchMask0
  let highBit := 2 ^ (patternLength - 1)
  let stF := outerLoop text pattern alphabet opts expectedLocation computeMatches highBit
    0 patternLength
    { currentThreshold := pre.1, bestLocation := none,
      binMax := patternLength + textLength, lastBitArr := fun _ => 0,
      finalScore := 1, matchMask := pre.2 }
  let result0 : SearchResult :=
    { is_match := stF.bestLocation.isSome, score := max (1 / 1000) stF.finalScore,
      indices := none }
  if computeMatches then
    let boolMask := stF.matchMask.map (fun x => x != 0)
    let indicies := convert_mask_to_indices boolMask opts.minMatchCharLength
    if indicies.isEmpty then { result0 with is_match := false }
    else if opts.includeMatches then { result0 with indices := some indicies }
    else result0
  else result0

/-- Embedding of the bitap kernel `search`
(`search/bitmap/search.rs` lines 21–199): fail fast on over-long patterns,
otherwise run the single-exit body. -/
def search (text pattern : List Char) (alphabet : Char → Nat) (opts : FuseOptions) :
    Except FuseError SearchResult :=
  if MAX_BITS < pattern.length then .error (.patternLengthTooLarge MAX_BITS)
  else .ok (search_body text pattern alphabet opts)

/-- Embedding of `create_pattern_alphabet`
(`search/bitmap/create_pattern_alphabet.rs`): per-character bitmask with
bit `len − i − 1` set for every position `i` holding the character. The
HashMap is a total function, with 0 for absent characters (an inserted
mask always has a bit set). -/
def create_pattern_alphabet (pattern : List Char) : Char → Nat := fun c =>
  pattern.enum.foldl
    (fun acc p => if p.2 = c then acc ||| 2 ^ (pattern.length - p.1 - 1) else acc) 0

/-- A pattern chunk (`search/bitmap/bitmap_search.rs`, `PatternChunk`). -/
structure PatternChunk where
  pattern : List Char
  alphabet : Char → Nat
  startIndex : Nat

/-- The chunked bitap searcher (`search/bitmap/bitmap_search.rs`,
`BitmapSearch`). -/
structure BitmapSearch where
  pattern : List Char
  options : FuseOptions
  chunks : List PatternChunk

/-- Lowercasing (Rust `str::to_lowercase`), modelled per code point. -/
def toLowercase (s : List Char) : List Char := s.map Char.toLower

/-- Chunk construction (`bitmap_search.rs`, `add_chunk_from_pattern`):
full W-wide chunks at 0, W, 2W, …, and when a remainder exists a final
W-wide chunk starting at `len − W` (overlapping the tail). Rust's byte
slicing is code-point slicing here. -/
def addChunksFromPattern (pattern : List Char) : List PatternChunk :=
  let len := pattern.length
  if MAX_BITS < len then
    let remainder := len % MAX_BITS
    let e := len - remainder
    let fullChunks := (List.range (e / MAX_BITS)).map (fun k =>
      let chunk := (pattern.drop (k * MAX_BITS)).take MAX_BITS
      PatternChunk.mk chunk (create_pattern_alphabet chunk) (k * MAX_BITS))
    if 0 < remainder then
      let startIndex := len - MAX_BITS
      let chunk := pattern.drop startIndex
      fullChunks ++ [PatternChunk.mk chunk (create_pattern_alphabet chunk) startIndex]
    else fullChunks
  else [PatternChunk.mk pattern (create_pattern_alphabet pattern) 0]

/-- Embedding of `BitmapSearch::new` (`bitmap_search.rs` lines 28–53).
The diacritic stripper `StrExt::strip_diacritics` lives in the missing
`helpers/str_ext.rs`, so it is passed as a parameter `stripFn` (spec §6
fixes only its contract); every theorem below holds for an arbitrary
stripper. -/
def BitmapSearch.new (stripFn : List Char → List Char) (pattern : List Char)
    (options : FuseOptions) : BitmapSearch :=
  let p1 := if options.isCaseSensitive then pattern else toLowercase pattern
  let newPattern := if options.ignoreDiacritics then stripFn p1 else p1
  { pattern := newPattern, options := options,
    chunks := if newPattern.isEmpty then [] else addChunksFromPattern newPattern }

/-- The text normalisation done at the top of `BitmapSearch::search_in`
(`bitmap_search.rs` lines 90–100). -/
def normalizeText (stripFn : List Char → List Char) (options : FuseOptions)
    (text : List Char) : List Char :=
  let t1 := if options.isCaseSensitive then text else toLowercase text
  if options.ignoreDiacritics then stripFn t1 else t1

/-- One chunk iteration of the `search_in` fold (`bitmap_search.rs` lines
118–141). The accumulator is (all_indices, total_score, has_matches);
`has_matches` is re-assigned from every chunk result exactly as in the
source, and a chunk error leaves the accumulator unchanged (the closure
returns early). -/
def chunkStep (options : FuseOptions) (text : List Char)
    (acc : List (Nat × Nat) × ℚ × Bool) (chunk : PatternChunk) :
    List (Nat × Nat) × ℚ × Bool :=
  let chunkOptions := { options with location := options.location + chunk.startIndex }
  match search text chunk.pattern chunk.alphabet chunkOptions with
  | .ok val =>
    let allIndices :=
      if val.is_match && val.indices.isSome then acc.1 ++ val.indices.getD []
      else acc.1
    (allIndices, acc.2.1 + val.score, val.is_match)
  | .error _ => acc

/-- Embedding of `BitmapSearch::search_in` (`bitmap_search.rs` lines
89–152): normalise the text, short-circuit on text equal to the pattern
with score 0, otherwise fold the chunks and divide the accumulated score
by the chunk count. -/
def BitmapSearch.searchIn (stripFn : List Char → List Char) (bs : BitmapSearch)
    (text : List Char) : SearchResult :=
  let text := normalizeText stripFn bs.options text
  if text = bs.pattern then
    { is_match := true, score := 0,
      indices := if bs.options.includeMatches then some [(0, text.length - 1)] else none }
  else
    let acc := bs.chunks.foldl (chunkStep bs.options text) ([], 0, false)
    { is_match := acc.2.2,
      score := if acc.2.2 then acc.2.1 / (bs.chunks.length : ℚ) else 1,
      indices := if bs.options.includeMatches && acc.2.2 then some acc.1 else none }

/-! Extended match primitives (`search/extended/*.rs`). -/

/-- In the Rust regex crate `.` does not match a newline and `$` anchors
at the end of the haystack; every classifier regex below has the shape
`^pre(.*)suf$` with literal `pre` and `suf`. -/
def noNewline (s : List Char) : Bool := s.all (· != '\n')

/-- Matches the anchored regex `^pre(.*)suf$` against `tok`, returning the
capture: the frame must fit without overlapping, and the greedy capture is
whatever stands between the two literals. -/
def captureFrame (pre suf tok : List Char) : Option (List Char) :=
  if pre.length + suf.length ≤ tok.length
      && tok.take pre.length == pre
      && tok.drop (tok.length - suf.length) == suf then
    let mid := (tok.drop pre.length).take (tok.length - pre.length - suf.length)
    if noNewline mid then some mid else none
  else none

/-- `ExactMatch::is_multi_match`: regex `^="(.*)"$`
(`extended/exact_match.rs`). -/
def ExactMatch.is_multi_match : List Char → Option (List Char) :=
  captureFrame ['=', '"'] ['"']

/-- `ExactMatch::is_single_match`: regex `^=(.*)$`. -/
def ExactMatch.is_single_match : List Char → Option (List Char) :=
  captureFrame ['='] []

/-- `IncludeMatch::is_multi_match`: regex `^'"(.*)"$`
(`extended/include_match.rs`). -/
def IncludeMatch.is_multi_match : List Char → Option (List Char) :=
  captureFrame ['\'', '"'] ['"']

/-- `IncludeMatch::is_single_match`: regex `^'(.*)$`. -/
def IncludeMatch.is_single_match : List Char → Option (List Char) :=
  captureFrame ['\''] []

/-- `PrefixExactMatch::is_multi_match`: regex `^\^"(.*)"$`
(`extended/prefix_exact_match.rs`). -/
def PrefixExactMatch.is_multi_match : List Char → Option (List Char) :=
  captureFrame ['^', '"'] ['"']

/-- `PrefixExactMatch::is_single_match`: regex `^\^(.*)$`. -/
def PrefixExactMatch.is_single_match : List Char → Option (List Char) :=
  captureFrame ['^'] []

/-- `InversePrefixExactMatch::is_multi_match`: regex `^!\^"(.*)"$`
(`extended/inverse_prefix_exact_match.rs`). -/
def InversePrefixExactMatch.is_multi_match : List Char → Option (List Char) :=
  captureFrame ['!', '^', '"'] ['"']

/-- `InversePrefixExactMatch::is_single_match`: regex `^!\^(.*)$`. -/
def InversePrefixExactMatch.is_single_match : List Char → Option (List Char) :=
  captureFrame ['!', '^'] []

/-- `InverseSuffixExactMatch::is_multi_match`: regex `^!"(.*)"\$$`
(`extended/inverse_suffix_exact_match.rs`). -/
def InverseSuffixExactMatch.is_multi_match : List Char → Option (List Char) :=
  captureFrame ['!', '"'] ['"', '$']

/-- `InverseSuffixExactMatch::is_single_match`: regex `^!(.*)\$$`. -/
def InverseSuffixExactMatch.is_single_match : List Char → Option (List Char) :=
  captureFrame ['!'] ['$']

/-- `SuffixExactMatch::is_multi_match`: regex `^"(.*)"\$$`
(`extended/suffix_exact_match.rs`). -/
def SuffixExactMatch.is_multi_match : List Char → Option (List Char) :=
  captureFrame ['"'] ['"', '$']

/-- `SuffixExactMatch::is_single_match`: regex `^(.*)\$$`. -/
def SuffixExactMatch.is_single_match : List Char → Option (List Char) :=
  captureFrame [] ['$']

/-- `InverseExactMatch::is_multi_match`: regex `^!"(.*)"$`
(`extended/inverse_exact_match.rs`). -/
def InverseExactMatch.is_multi_match : List Char → Option (List Char) :=
  captureFrame ['!', '"'] ['"']

/-- `InverseExactMatch::is_single_match`: regex `^!(.*)$`. -/
def InverseExactMatch.is_single_match : List Char → Option (List Char) :=
  captureFrame ['!'] []

/-- `FuzzyMatch::is_multi_match`: regex `^"(.*)"$`
(`extended/fuzzy_match.rs`). -/
def FuzzyMatch.is_multi_match : List Char → Option (List Char) :=
  captureFrame ['"'] ['"']

/-- `FuzzyMatch::is_single_match`: regex `^(.*)$`. -/
def FuzzyMatch.is_single_match : List Char → Option (List Char) :=
  captureFrame [] []

/-- The eight extended matchers with the pattern each carries. Only
`FuzzyMatch` stores options in the source (`FuzzyMatchOptions`); the
fields dropped by its `FuseOptions → FuzzyMatchOptions → FuseOptions`
round trip (the normalisation flags) are never read by the bitap
kernel, so the options are carried whole. -/
inductive Matcher
  | exactMatch (pattern : List Char)
  | includeMatch (pattern : List Char)
  | prefixExactMatch (pattern : List Char)
  | inversePrefixExactMatch (pattern : List Char)
  | inverseSuffixExactMatch (pattern : List Char)
  | suffixExactMatch (pattern : List Char)
  | inverseExactMatch (pattern : List Char)
  | fuzzyMatch (pattern : List Char) (options : FuseOptions)
  deriving DecidableEq, Repr

/-- `text.starts_with(pattern)` on code points. -/
def startsWith (text pattern : List Char) : Bool :=
  text.take pattern.length == pattern

/-- `text.ends_with(pattern)` on code points. -/
def endsWith (text pattern : List Char) : Bool :=
  text.drop (text.length - pattern.length) == pattern

/-- Rust `str::find`: position of the first occurrence of `needle`. -/
def strFind (hay needle : List Char) : Option Nat :=
  (List.range (hay.length + 1)).find? (fun i => occursAt hay needle i)

/-- The occurrence-collection loop of `IncludeMatch::search`
(`extended/include_match.rs` lines 55–59), fuel-indexed: each found
occurrence advances `location` past itself. With the empty pattern the
Rust loop finds an occurrence at `location` itself, never advances, and
does not terminate (and the `- 1` on the pushed end underflows), so no
amount of fuel yields a result. -/
def includeLoop (text pattern : List Char) :
    Nat → Nat → List (Nat × Nat) → Option (List (Nat × Nat))
  | 0, _, _ => none
  | fuel + 1, location, indices =>
    match strFind (text.drop location) pattern with
    | none => some indices
    | some index =>
      let absoluteIndex := location + index
      includeLoop text pattern fuel (absoluteIndex + pattern.length)
        (indices ++ [(absoluteIndex, absoluteIndex + pattern.length - 1)])

/-- `IncludeMatch::search` (`extended/include_match.rs` lines 49–72);
`none` marks the diverging empty-pattern case. -/
def includeSearch (pattern text : List Char) : Option SearchResult :=
  (includeLoop text pattern (text.length + 1) 0 []).map (fun indices =>
    let isMatch := !indices.isEmpty
    { is_match := isMatch, score := if isMatch then 0 else 1,
      indices := if isMatch then some indices else none })

/-- `BaseMatch::search` dispatched over the eight matchers, each from its
source file; `none` propagates the diverging include case, and the fuzzy
matcher delegates to the bitap kernel, turning a kernel error into the
no-match result (`fuzzy_match.rs`, `unwrap_or_else`). -/
def Matcher.search : Matcher → List Char → Option SearchResult
  | .exactMatch pattern, text =>
    let isMatch := text == pattern
    some { is_match := isMatch, score := if isMatch then 0 else 1,
           indices := if isMatch then some [(0, pattern.length - 1)] else none }
  | .includeMatch pattern, text => includeSearch pattern text
  | .prefixExactMatch pattern, text =>
    let isMatch := startsWith text pattern
    some { is_match := isMatch, score := if isMatch then 0 else 1,
           indices := if isMatch then some [(0, pattern.length - 1)] else none }
  | .inversePrefixExactMatch pattern, text =>
    let isMatch := !startsWith text pattern
    some { is_match := isMatch, score := if isMatch then 0 else 1,
           indices := some [(0, text.length - 1)] }
  | .inverseSuffixExactMatch pattern, text =>
    let isMatch := !endsWith text pattern
    some { is_match := isMatch, score := if isMatch then 0 else 1,
           indices := if isMatch then some [(0, text.length - 1)] else none }
  | .suffixExactMatch pattern, text =>
    let isMatch := endsWith text pattern
    let indices :=
      if isMatch then
        if pattern.isEmpty then
          if text.isEmpty then [(0, 0)] else [(text.length - 1, text.length - 1)]
        else [(text.length - pattern.length, text.length - 1)]
      else []
    some { is_match := isMatch, score := if isMatch then 0 else 1,
           indices := if isMatch then some indices else none }
  | .inverseExactMatch pattern, text =>
    let isMatch := (strFind text pattern).isNone
    some { is_match := isMatch, score := if isMatch then 0 else 1,
           indices := some [(0, text.length - 1)] }
  | .fuzzyMatch pattern options, text =>
    some (match Fuse.search text pattern (create_pattern_alphabet pattern) options with
          | .ok r => r
          | .error _ => { is_match := false, score := 1, indices := none })

/-- Membership in `MULTI_MATCH_SET` (`extended_search.rs` lines 14–21):
only fuzzy and include matchers contribute all their ranges. -/
def Matcher.isMultiMatchType : Matcher → Bool
  | .fuzzyMatch _ _ => true
  | .includeMatch _ => true
  | _ => false

/-- The AND loop over one group's matchers (`extended_search.rs` lines
124–149): accumulate the match count, the score total and (under
includeMatches) the indices, or zero everything and stop at the first
failing matcher. `none` propagates a diverging matcher. -/
def andLoop (includeMatches : Bool) (text : List Char) :
    List Matcher → List (Nat × Nat) → Nat → ℚ →
      Option (List (Nat × Nat) × Nat × ℚ)
  | [], allIndices, numMatches, totalScore => some (allIndices, numMatches, totalScore)
  | searcher :: rest, allIndices, numMatches, totalScore =>
    match searcher.search text with
    | none => none
    | some result =>
      if result.is_match then
        let allIndices' :=
          if includeMatches then
            match result.indices with
            | some indices =>
              if searcher.isMultiMatchType then allIndices ++ indices
              else
                match indices with
                | p :: _ => allIndices ++ [p]
                | [] => allIndices
            | none => allIndices
          else allIndices
        andLoop includeMatches text rest allIndices' (numMatches + 1)
          (totalScore + result.score)
      else some ([], 0, 0)

/-- The OR loop of `ExtendedSearch::search_in` (`extended_search.rs` lines
117–170): every group starts with cleared indices and match count while
`total_score` is threaded through exactly as in the source (a failing
group zeroes it, a succeeding group returns). -/
def orLoop (includeMatches : Bool) (text : List Char) (totalScore : ℚ) :
    List (List Matcher) → Option SearchResult
  | [] => some { is_match := false, score := 1, indices := none }
  | searchers :: rest =>
    match andLoop includeMatches text searchers [] 0 totalScore with
    | none => none
    | some (allIndices, numMatches, totalScore') =>
      if 0 < numMatches then
        some { is_match := true, score := totalScore' / (numMatches : ℚ),
               indices := if includeMatches then some allIndices else none }
      else orLoop includeMatches text totalScore' rest

/-- Embedding of `ExtendedSearch::search_in` (`extended_search.rs` lines
88–171) on an already-parsed query (the OR-of-AND matcher table built by
`parse_query`): normalise the text, then run the OR loop. `none`
propagates a diverging include matcher. -/
def ExtendedSearch.searchIn (stripFn : List Char → List Char)
    (options : FuseOptions) (query : List (List Matcher)) (text : List Char) :
    Option SearchResult :=
  orLoop options.includeMatches (normalizeText stripFn options text) 0 query

/-- Whether every matcher of a group reports a match on `text` (a
diverging search counts as no match; the execution theorem assumes
totality of the searches it runs). -/
def groupAllMatch (text : List Char) (g : List Matcher) : Bool :=
  g.all (fun m =>
    ((m.search text).getD { is_match := false, score := 1, indices := none }).is_match)

/-- Sum of the scores the matchers of a group report on `text`. -/
def groupScoreSum (text : List Char) (g : List Matcher) : ℚ :=
  (g.map (fun m =>
    ((m.search text).getD { is_match := false, score := 1, indices := none }).score)).sum

/-- The per-token classifier of `parse_query`
(`extended/parse_query.rs` lines 45–162): try every matcher's multi regex
in the source order — exact, include, prefix-exact, inverse-prefix-exact,
inverse-suffix-exact, suffix-exact, inverse-exact, fuzzy — then every
single regex in the same order; the first acceptance wins. `none` (no
classifier accepted; only possible for a token with a newline) drops the
token in the source. -/
def classifyToken (options : FuseOptions) (tok : List Char) : Option Matcher :=
  (ExactMatch.is_multi_match tok).map .exactMatch <|>
  (IncludeMatch.is_multi_match tok).map .includeMatch <|>
  (PrefixExactMatch.is_multi_match tok).map .prefixExactMatch <|>
  (InversePrefixExactMatch.is_multi_match tok).map .inversePrefixExactMatch <|>
  (InverseSuffixExactMatch.is_multi_match tok).map .inverseSuffixExactMatch <|>
  (SuffixExactMatch.is_multi_match tok).map .suffixExactMatch <|>
  (InverseExactMatch.is_multi_match tok).map .inverseExactMatch <|>
  (FuzzyMatch.is_multi_match tok).map (.fuzzyMatch · options) <|>
  (ExactMatch.is_single_match tok).map .exactMatch <|>
  (IncludeMatch.is_single_match tok).map .includeMatch <|>
  (PrefixExactMatch.is_single_match tok).map .prefixExactMatch <|>
  (InversePrefixExactMatch.is_single_match tok).map .inversePrefixExactMatch <|>
  (InverseSuffixExactMatch.is_single_match tok).map .inverseSuffixExactMatch <|>
  (SuffixExactMatch.is_single_match tok).map .suffixExactMatch <|>
  (InverseExactMatch.is_single_match tok).map .inverseExactMatch <|>
  (FuzzyMatch.is_single_match tok).map (.fuzzyMatch · options)

/-- One row of a classifier table: a multi regex, a single regex and the
matcher constructor. -/
structure ClassifierRow where
  multi : List Char → Option (List Char)
  single : List Char → Option (List Char)
  build : List Char → Matcher

/-- Classification by a row table: first row whose multi regex accepts,
then — if none — first row whose single regex accepts. -/
def rowsClassify (rows : List ClassifierRow) (tok : List Char) : Option Matcher :=
  match rows.findSome? (fun r => (r.multi tok).map r.build) with
  | some m => some m
  | none => rows.findSome? (fun r => (r.single tok).map r.build)

/-- Modelled from the spec: the classifier table in the order of the §4.8
table as the claim reads it — exact, include, prefix-exact,
inverse-prefix-exact, suffix-exact, inverse-suffix-exact, inverse-exact,
fuzzy. -/
def claimOrderRows (options : FuseOptions) : List ClassifierRow :=
  [⟨ExactMatch.is_multi_match, ExactMatch.is_single_match, .exactMatch⟩,
   ⟨IncludeMatch.is_multi_match, IncludeMatch.is_single_match, .includeMatch⟩,
   ⟨PrefixExactMatch.is_multi_match, PrefixExactMatch.is_single_match, .prefixExactMatch⟩,
   ⟨InversePrefixExactMatch.is_multi_match, InversePrefixExactMatch.is_single_match,
     .inversePrefixExactMatch⟩,
   ⟨SuffixExactMatch.is_multi_match, SuffixExactMatch.is_single_match, .suffixExactMatch⟩,
   ⟨InverseSuffixExactMatch.is_multi_match, InverseSuffixExactMatch.is_single_match,
     .inverseSuffixExactMatch⟩,
   ⟨InverseExactMatch.is_multi_match, InverseExactMatch.is_single_match, .inverseExactMatch⟩,
   ⟨FuzzyMatch.is_multi_match, FuzzyMatch.is_single_match, (.fuzzyMatch · options)⟩]

/-- The classifier table in the order the source actually uses:
inverse-suffix-exact before suffix-exact, otherwise as in the claim. -/
def sourceOrderRows (options : FuseOptions) : List ClassifierRow :=
  [⟨ExactMatch.is_multi_match, ExactMatch.is_single_match, .exactMatch⟩,
   ⟨IncludeMatch.is_multi_match, IncludeMatch.is_single_match, .includeMatch⟩,
   ⟨PrefixExactMatch.is_multi_match, PrefixExactMatch.is_single_match, .prefixExactMatch⟩,
   ⟨InversePrefixExactMatch.is_multi_match, InversePrefixExactMatch.is_single_match,
     .inversePrefixExactMatch⟩,
   ⟨InverseSuffixExactMatch.is_multi_match, InverseSuffixExactMatch.is_single_match,
     .inverseSuffixExactMatch⟩,
   ⟨SuffixExactMatch.is_multi_match, SuffixExactMatch.is_single_match, .suffixExactMatch⟩,
   ⟨InverseExactMatch.is_multi_match, InverseExactMatch.is_single_match, .inverseExactMatch⟩,
   ⟨FuzzyMatch.is_multi_match, FuzzyMatch.is_single_match, (.fuzzyMatch · options)⟩]

/-! Logical query parser (`core/query_parser.rs`). -/

/-- JSON values (`serde_json::Value`). Objects and the query maps are
ordered association lists; numbers carry their exact value. -/
inductive Json
  | null
  | bool (b : Bool)
  | num (n : ℚ)
  | str (s : String)
  | arr (items : List Json)
  | obj (fields : List (String × Json))

/-- A query map (`HashMap<String, Value>`) as an association list; the
claims evaluate map-order-sensitive code on single-key maps only. -/
def QueryMap := List (String × Json)

/-- Key membership in a query map. -/
def hasKey (query : List (String × Json)) (k : String) : Bool :=
  query.any (fun p => p.1 == k)

/-- `QueryAnalyzer::is_expression` (`core/query_parser.rs` lines
102–104). -/
def is_expression (query : List (String × Json)) : Bool :=
  hasKey query "$and" || hasKey query "$or"

/-- `QueryAnalyzer::is_path` (`core/query_parser.rs` lines 107–109). -/
def is_path (query : List (String × Json)) : Bool :=
  hasKey query "$path"

/-- `QueryAnalyzer::needs_explicit_and` (`core/query_parser.rs` lines
124–126). -/
def needs_explicit_and (query : List (String × Json)) : Bool :=
  1 < query.length && !is_expression query && !is_path query

/-- Embedding of `QueryTransformer::convert_to_explicit`
(`core/query_parser.rs` lines 138–150): wrap every key/value pair of the
map in its own one-key object and collect them all under a fresh
`$and`. -/
def convert_to_explicit (query : List (String × Json)) : List (String × Json) :=
  [("$and", Json.arr (query.map (fun p => Json.obj [p])))]

/-- The conversion as `QueryParser::parse_value` applies it
(`core/query_parser.rs` lines 307–312): only when
`needs_explicit_and`. -/
def convertToExplicitStep (query : List (String × Json)) : List (String × Json) :=
  if needs_explicit_and query then convert_to_explicit query else query

/-! Key store (`tools/key_store.rs`, `core/options/keys.rs`). -/

/-- Key-name forms (`core/options/keys.rs`, `FuseOptionKeyName`). -/
inductive FuseOptionKeyName
  | string (s : String)
  | stringArray (arr : List String)

/-- A key-spec object (`core/options/keys.rs`, `FuseOptionKeyObject`);
`get_fn` is the optional custom record getter. -/
structure FuseOptionKeyObject where
  name : FuseOptionKeyName
  weight : Option ℚ
  get_fn : Option (Json → String)

/-- Key specs (`core/options/keys.rs`, `FuseOptionKey`). -/
inductive FuseOptionKey
  | string (s : String)
  | stringArray (arr : List String)
  | keyObject (obj : FuseOptionKeyObject)

/-- A Rust panic raised during key construction, carrying the data of the
message `Invalid weight ({w}) for key: '{id}'`
(`tools/key_store.rs` line 160). -/
inductive RustPanic
  | invalidWeight (w : ℚ) (key : String)
  deriving DecidableEq, Repr

/-- Splitting a sequence of code points at every `.` (the semantics of
Rust `str::split('.')`: the empty input yields one empty segment,
adjacent dots yield empty segments). -/
def splitPathChars : List Char → List (List Char)
  | [] => [[]]
  | c :: rest =>
    let r := splitPathChars rest
    if c = '.' then [] :: r
    else
      match r with
      | seg :: segs => (c :: seg) :: segs
      | [] => [[c]]

/-- `create_key_path` (`tools/key_store.rs` lines 183–185): the dotted
string split into segments. (`String.splitOn` does not evaluate inside
the kernel, so the split is spelled out over the code points.) -/
def create_key_path (key : String) : List String :=
  (splitPathChars key.toList).map List.asString

/-- `create_key_id` (`tools/key_store.rs` lines 196–198). -/
def create_key_id (path : List String) : String :=
  String.intercalate "." path

/-- A searchable key (`tools/key_store.rs`, `Key`). -/
structure Key where
  path : List String
  id : String
  weight : ℚ
  src : String
  get_fn : Option (Json → String)

/-- Embedding of `create_key` (`tools/key_store.rs` lines 132–172); the
`panic!` on a non-positive declared weight is the `Except.error`. -/
def create_key (key : FuseOptionKey) : Except RustPanic Key :=
  match key with
  | .string s =>
    let path := create_key_path s
    .ok { path := path, id := create_key_id path, weight := 1, src := s, get_fn := none }
  | .stringArray arr =>
    .ok { path := arr, id := create_key_id arr, weight := 1,
          src := String.intercalate "." arr, get_fn := none }
  | .keyObject obj =>
    let sp : String × List String :=
      match obj.name with
      | .string name => (name, create_key_path name)
      | .stringArray arr => (String.intercalate "." arr, arr)
    match obj.weight with
    | some w =>
      if w ≤ 0 then .error (.invalidWeight w (String.intercalate "." sp.2))
      else .ok { path := sp.2, id := create_key_id sp.2, weight := w, src := sp.1,
                 get_fn := obj.get_fn }
    | none => .ok { path := sp.2, id := create_key_id sp.2, weight := 1, src := sp.1,
                    get_fn := obj.get_fn }

/-- The key collection (`tools/key_store.rs`, `KeyStore`); the id→key
`key_map` is derived data and omitted. -/
structure KeyStore where
  keys : List Key

/-- The key-creation loop of `KeyStore::new` (`tools/key_store.rs` lines
74–78): create every key in order, surfacing the first panic. -/
def createKeys : List FuseOptionKey → Except RustPanic (List Key)
  | [] => .ok []
  | k :: ks => do
    let key ← create_key k
    let rest ← createKeys ks
    pure (key :: rest)

/-- Embedding of `KeyStore::new` (`tools/key_store.rs` lines 70–93):
create every key, total the raw weights, and divide each weight by the
total when the total is positive (otherwise keep it). -/
def KeyStore.new (keys : List FuseOptionKey) : Except RustPanic KeyStore := do
  let rawKeys ← createKeys keys
  let totalWeight := (rawKeys.map Key.weight).sum
  pure { keys := rawKeys.map (fun k =>
    { k with weight := if 0 < totalWeight then k.weight / totalWeight else k.weight }) }

/-! Record index (`tools/fuse_index.rs`, `helpers/get.rs`). -/

/-- Result of path extraction (`helpers/get.rs`, `GetValue`). -/
inductive GetValue
  | string (s : String)
  | array (values : List String)

/-- Canonical text of a JSON number leaf (`serde_json::Number::to_string`);
the exact rendering is irrelevant to every claim. -/
def numToString (n : ℚ) : String := toString n

/-- The recursive extractor `get_value` (`helpers/get.rs` lines 103–134):
walk the path; a segment that parses as a number indexes arrays (and, as
with `serde_json::Value::get`, only arrays), any other segment looks up
object fields; an intermediate array distributes the remaining path over
its elements and raises the `is_array` flag; the terminal step keeps
strings and stringifies booleans and numbers. Returns the collected
strings and the flag. -/
def get_value (obj : Json) : List String → List String × Bool
  | [] =>
    match obj with
    | .str s => ([s], false)
    | .bool b => ([if b then "true" else "false"], false)
    | .num n => ([numToString n], false)
    | _ => ([], false)
  | key :: rest =>
    let child : Option Json :=
      match key.toNat? with
      | some num =>
        match obj with
        | .arr items => items.get? num
        | _ => none
      | none =>
        match obj with
        | .obj fields => (fields.find? (fun p => p.1 == key)).map Prod.snd
        | _ => none
    match child with
    | none => ([], false)
    | some (.arr items) => ((items.map (fun it => (get_value it rest).1)).flatten, true)
    | some v => get_value v rest

/-- The array-path getter (`helpers/get.rs`, `impl Get for Vec<String>`):
empty collection is `None`; otherwise an `Array` when the walk crossed an
array, else the single first string. -/
def getPath (path : List String) (obj : Json) : Option GetValue :=
  let r := get_value obj path
  match r.1 with
  | [] => none
  | s :: _ => if r.2 then some (.array r.1) else some (.string s)

/-- An indexed field value (`tools/fuse_index_record.rs`, `IndexValue`). -/
structure IndexValue where
  v : String
  n : ℚ
  i : Option Nat

/-- A record entry (`tools/fuse_index_record.rs`, `RecordEntryValue`). -/
inductive RecordEntryValue
  | single (value : IndexValue)
  | array (values : List IndexValue)

/-- A record of the index (`tools/fuse_index_record.rs`,
`FuseIndexRecord`); entries are keyed by the stringified key slot. -/
inductive FuseIndexRecord
  | string (i : Nat) (v : String) (n : ℚ)
  | object (i : Nat) (entries : List (String × RecordEntryValue))

/-- The record index of either record form. -/
def FuseIndexRecord.recIdx : FuseIndexRecord → Nat
  | .string i _ _ => i
  | .object i _ => i

/-- `collect_sub_records` (`tools/fuse_index.rs` lines 187–214): the
stack push-then-pop visits the array back to front; empty strings are
dropped, and each kept element records its original array position. The
field-length norm is abstracted as `normGet` (the `Norm` cache computes
`f64` powers; no claim depends on its values). -/
def collect_sub_records (normGet : String → ℚ) (arr : List String) : List IndexValue :=
  arr.enum.reverse.filterMap (fun p =>
    if p.2.isEmpty then none
    else some { v := p.2, n := normGet p.2, i := some p.1 })

/-- `add_object` with `process_string_value` / `process_array_value`
(`tools/fuse_index.rs` lines 113–184): for each key in slot order,
extract via the key's own getter or the index's configurable getter
`indexGetFn` (the index's `get_fn`, by default the path getter
`getPath`), and store a single entry or the non-empty collected array
entry under the stringified slot; a record with no extractable content
keeps an empty entry map. -/
def add_object (normGet : String → ℚ) (indexGetFn : List String → Json → Option GetValue)
    (keys : List Key) (doc : Json) (idx : Nat) : FuseIndexRecord :=
  let entries := keys.enum.foldl
    (fun acc (p : Nat × Key) =>
      let extracted : Option GetValue :=
        match p.2.get_fn with
        | some f => some (.string (f doc))
        | none => indexGetFn p.2.path doc
      match extracted with
      | none => acc
      | some (.string s) =>
        acc ++ [(toString p.1, RecordEntryValue.single { v := s, n := normGet s, i := none })]
      | some (.array arr) =>
        let subRecords := collect_sub_records normGet arr
        if subRecords.isEmpty then acc
        else acc ++ [(toString p.1, RecordEntryValue.array subRecords)])
    []
  .object idx entries

/-- `FuseIndex::add` with `add_string` (`tools/fuse_index.rs` lines
76–111): the record index is the size before the add; a string document
is skipped entirely when empty, any other document is appended as an
object record (with possibly zero entries). -/
def FuseIndex.add (normGet : String → ℚ) (indexGetFn : List String → Json → Option GetValue)
    (keys : List Key) (records : List FuseIndexRecord) (doc : Json) : List FuseIndexRecord :=
  let idx := records.length
  match doc with
  | .str value =>
    if value.isEmpty then records
    else records ++ [.string idx value (normGet value)]
  | _ => records ++ [add_object normGet indexGetFn keys doc idx]

/-- `FuseIndex::set_source` (`tools/fuse_index.rs` lines 53–60): clear
and re-add every document in order. -/
def set_source (normGet : String → ℚ) (indexGetFn : List String → Json → Option GetValue)
    (keys : List Key) (docs : List Json) : List FuseIndexRecord :=
  docs.foldl (FuseIndex.add normGet indexGetFn keys) []

/-- Whether `FuseIndex::add` stores a record for this document: every
document except the empty string. -/
def keptDoc : Json → Bool
  | .str s => !s.isEmpty
  | _ => true

/-- Decidable equality of `Except` values with decidable components (used
to evaluate the embedded kernel at concrete inputs). -/
instance {ε α : Type} [DecidableEq ε] [DecidableEq α] : DecidableEq (Except ε α)
  | .ok a, .ok b =>
    if h : a = b then .isTrue (by rw [h])
    else .isFalse (fun hc => h (Except.ok.inj hc))
  | .error a, .error b =>
    if h : a = b then .isTrue (by rw [h])
    else .isFalse (fun hc => h (Except.error.inj hc))
  | .ok _, .error _ => .isFalse (fun hc => Except.noConfusion hc)
  | .error _, .ok _ => .isFalse (fun hc => Except.noConfusion hc)

/-! Theorems. -/

/-- The kernel body always clamps the final score from below at 0.001
(`search.rs` line 179, `score: (0.001f64).max(final_score)`). -/
theorem search_body_score_ge (text pattern : List Char) (alphabet : Char → Nat)
    (opts : FuseOptions) :
    (1 : ℚ) / 1000 ≤ (search_body text pattern alphabet opts).score := by
  unfold search_body
  dsimp only
  split
  · split
    · exact le_max_left _ _
    · split <;> exact le_max_left _ _
  · exact le_max_left _ _

/-- A pattern within the width limit never takes the error exit. -/
theorem search_ok_of_le (text pattern : List Char) (alphabet : Char → Nat)
    (opts : FuseOptions) (h : pattern.length ≤ MAX_BITS) :
    search text pattern alphabet opts = .ok (search_body text pattern alphabet opts) := by
  unfold search
  rw [if_neg (Nat.not_lt.mpr h)]

/-- Any `Ok` result of the kernel carries a score of at least 0.001. -/
theorem search_score_ge (text pattern : List Char) (alphabet : Char → Nat)
    (opts : FuseOptions) (r : SearchResult)
    (h : search text pattern alphabet opts = .ok r) : (1 : ℚ) / 1000 ≤ r.score := by
  unfold search at h
  split at h
  · exact absurd h (by simp)
  · rw [Except.ok.injEq] at h
    rw [← h]
    exact search_body_score_ge text pattern alphabet opts

/-- Every chunk the chunker builds fits in the bitap width. -/
theorem addChunks_pattern_length_le (pattern : List Char) :
    ∀ c ∈ addChunksFromPattern pattern, c.pattern.length ≤ MAX_BITS := by
  intro c hc
  unfold addChunksFromPattern at hc
  by_cases h : MAX_BITS < pattern.length
  · rw [if_pos h] at hc
    dsimp only at hc
    by_cases hr : 0 < pattern.length % MAX_BITS
    · rw [if_pos hr] at hc
      rcases List.mem_append.mp hc with h1 | h2
      · obtain ⟨k, _, rfl⟩ := List.mem_map.mp h1
        simp only [List.length_take]
        omega
      · rcases List.mem_singleton.mp h2 with rfl
        simp only [List.length_drop]
        omega
    · rw [if_neg hr] at hc
      obtain ⟨k, _, rfl⟩ := List.mem_map.mp hc
      simp only [List.length_take]
      omega
  · rw [if_neg h] at hc
    rcases List.mem_singleton.mp hc with rfl
    simpa using Nat.not_lt.mp h

/-- Folding the chunk step over in-width chunks adds at least 0.001 per
chunk to the accumulated total score. -/
theorem chunkFold_score_ge (opts : FuseOptions) (text : List Char) :
    ∀ (chunks : List PatternChunk), (∀ c ∈ chunks, c.pattern.length ≤ MAX_BITS) →
    ∀ acc : List (Nat × Nat) × ℚ × Bool,
      acc.2.1 + (chunks.length : ℚ) * (1 / 1000) ≤
        (chunks.foldl (chunkStep opts text) acc).2.1 := by
  intro chunks
  induction chunks with
  | nil => intro _ acc; simp
  | cons c cs ih =>
    intro h acc
    have hc := h c (List.mem_cons_self c cs)
    have hcs := fun x hx => h x (List.mem_cons_of_mem c hx)
    have hstep : (chunkStep opts text acc c).2.1 =
        acc.2.1 + (search_body text c.pattern c.alphabet
          { opts with location := opts.location + c.startIndex }).score := by
      unfold chunkStep
      dsimp only
      rw [search_ok_of_le _ _ _ _ hc]
    have hscore := search_body_score_ge text c.pattern c.alphabet
      { opts with location := opts.location + c.startIndex }
    have := ih hcs (chunkStep opts text acc c)
    rw [List.foldl_cons]
    rw [hstep] at this
    push_cast [List.length_cons]
    linarith

/-- An empty chunk list leaves the fold at its initial accumulator, whose
`has_matches` is false. -/
theorem chunkFold_nil_not_match (opts : FuseOptions) (text : List Char) :
    (([] : List PatternChunk).foldl (chunkStep opts text) ([], 0, false)).2.2 = false := rfl

/-- C1 fails on the code and holds in this amended form: the kernel
`search` never returns a score below 0.001 (`max(0.001, finalScore)`),
while `BitmapSearch::search_in` returns score 0.0 — not 0.001 — exactly
on its exact-match fast path, i.e. when the normalised text equals the
normalised pattern, and otherwise also stays at or above 0.001. (The
upper bound 1.0 of the original claim fails as well: see the
counterexample, where the kernel returns 3/2.) -/
theorem bitap_score_range_amended :
    (∀ (text pattern : List Char) (alphabet : Char → Nat) (opts : FuseOptions)
        (r : SearchResult), search text pattern alphabet opts = .ok r →
        (1 : ℚ) / 1000 ≤ r.score) ∧
    (∀ (stripFn : List Char → List Char) (pattern text : List Char) (opts : FuseOptions),
        (normalizeText stripFn opts text = (BitmapSearch.new stripFn pattern opts).pattern ∧
          ((BitmapSearch.new stripFn pattern opts).searchIn stripFn text).score = 0) ∨
        (normalizeText stripFn opts text ≠ (BitmapSearch.new stripFn pattern opts).pattern ∧
          (1 : ℚ) / 1000 ≤
            ((BitmapSearch.new stripFn pattern opts).searchIn stripFn text).score)) := by
  constructor
  · exact search_score_ge
  · intro stripFn pattern text opts
    set bs := BitmapSearch.new stripFn pattern opts with hbs
    by_cases heq : normalizeText stripFn opts text = bs.pattern
    · left
      refine ⟨heq, ?_⟩
      have hopts : bs.options = opts := rfl
      unfold BitmapSearch.searchIn
      rw [hopts, if_pos heq]
    · right
      refine ⟨heq, ?_⟩
      have hopts : bs.options = opts := rfl
      unfold BitmapSearch.searchIn
      rw [hopts, if_neg heq]
      dsimp only
      set acc := bs.chunks.foldl (chunkStep opts (normalizeText stripFn opts text)) ([], 0, false)
        with hacc
      by_cases hm : acc.2.2 = true
      · rw [if_pos hm]
        have hchunks : ∀ c ∈ bs.chunks, c.pattern.length ≤ MAX_BITS := by
          intro c hc
          have : bs.chunks =
              if ((BitmapSearch.new stripFn pattern opts).pattern).isEmpty then []
              else addChunksFromPattern ((BitmapSearch.new stripFn pattern opts).pattern) := rfl
          rw [this] at hc
          split at hc
          · exact absurd hc (List.not_mem_nil c)
          · exact addChunks_pattern_length_le _ c hc
        have hne : bs.chunks ≠ [] := by
          intro hnil
          rw [hacc, hnil] at hm
          exact absurd hm (by simp [chunkFold_nil_not_match])
        have hlen : 0 < bs.chunks.length := List.length_pos.mpr hne
        have hsum := chunkFold_score_ge opts (normalizeText stripFn opts text)
          bs.chunks hchunks ([], 0, false)
        rw [← hacc] at hsum
        simp only at hsum
        rw [le_div_iff₀ (by exact_mod_cast hlen)]
        calc (1 : ℚ) / 1000 * bs.chunks.length
            = 0 + (bs.chunks.length : ℚ) * (1 / 1000) := by ring
          _ ≤ acc.2.1 := hsum
      · rw [if_neg hm]
        norm_num

unseal Rat.mul Rat.add Rat.inv in
/-- C1 is false as stated: searching the text "a" for the pattern "a"
with default options takes the exact-match fast path of
`BitmapSearch::search_in` and returns score 0.0 (the claim requires at
least 0.001 and says a perfect match scores 0.001), and the kernel can
also exceed the upper bound 1.0: on text "xa", pattern "ab" with
threshold 1 and distance 1, the last candidate inspected scores 3/2 and
is recorded as the final score even though it was rejected. -/
theorem bitap_score_range_counterexample :
    ((BitmapSearch.new id ['a'] {}).searchIn id ['a']).score = 0 ∧
    search ['x', 'a'] ['a', 'b'] (create_pattern_alphabet ['a', 'b'])
        { threshold := 1, distance := 1 } =
      .ok { is_match := false, score := 3 / 2, indices := none } := by
  constructor
  · rfl
  · decide

unseal Rat.mul Rat.add Rat.inv in
/-- Witness for `bitap_score_range_amended`: the kernel on text "a",
pattern "a" with default options returns exactly the result below, and
its score is at least 0.001. -/
theorem bitap_score_range_amended_witness :
    (1 : ℚ) / 1000 ≤
      ({ is_match := true, score := 1 / 1000, indices := none } : SearchResult).score :=
  bitap_score_range_amended.1 ['a'] ['a'] (create_pattern_alphabet ['a']) {}
    { is_match := true, score := 1 / 1000, indices := none } (by decide)

/-- C2: for every pattern of length m > 0, error count e, current
location c, expected location L, distance D and flag ignoreLocation,
`compute_score` returns e/m when ignoreLocation is set; otherwise, with
proximity = |L − c|: if D = 0 it returns 1.0 when proximity ≠ 0 and e/m
when proximity = 0, and if D > 0 it returns e/m + proximity/D. -/
theorem compute_score_spec (pattern : List Char) (e c L : Nat) (opts : FuseOptions)
    (hm : 0 < pattern.length) :
    (opts.ignoreLocation = true →
      compute_score pattern e c L opts = (e : ℚ) / (pattern.length : ℚ)) ∧
    (opts.ignoreLocation = false → opts.distance = 0 →
      compute_score pattern e c L opts =
        (if |(L : ℚ) - (c : ℚ)| ≠ 0 then 1 else (e : ℚ) / (pattern.length : ℚ))) ∧
    (opts.ignoreLocation = false → 0 < opts.distance →
      compute_score pattern e c L opts =
        (e : ℚ) / (pattern.length : ℚ) + |(L : ℚ) - (c : ℚ)| / (opts.distance : ℚ)) := by
  have habs : ((((L : ℤ) - (c : ℤ)).natAbs : ℚ)) = |(L : ℚ) - (c : ℚ)| := by
    push_cast [Int.cast_natAbs]
    norm_num
  refine ⟨?_, ?_, ?_⟩
  · intro h
    simp [compute_score, h]
  · intro h hd
    simp only [compute_score, h, Bool.false_eq_true, if_false, hd, if_true, ← habs]
    by_cases hz : (((L : ℤ) - (c : ℤ)).natAbs : ℚ) ≠ 0
    · rw [if_pos hz, if_pos]
      exact_mod_cast fun hc => hz (by exact_mod_cast hc)
    · rw [if_neg hz, if_neg]
      intro hc
      exact hz (by exact_mod_cast hc)
  · intro h hd
    simp [compute_score, h, Nat.pos_iff_ne_zero.mp hd, habs]

/-- Witness for `compute_score_spec` at pattern "ab", e = 1, c = 3, L = 10,
default options (distance 100). -/
theorem compute_score_spec_witness :
    (0 < (['a', 'b'] : List Char).length) ∧
    (({} : FuseOptions).ignoreLocation = false → 0 < ({} : FuseOptions).distance →
      compute_score ['a', 'b'] 1 3 10 {} =
        (1 : ℚ) / ((['a', 'b'] : List Char).length : ℚ) +
          |(10 : ℚ) - (3 : ℚ)| / (({} : FuseOptions).distance : ℚ)) :=
  ⟨by decide, (compute_score_spec ['a', 'b'] 1 3 10 {} (by decide)).2.2⟩

/-- C3: a pattern longer than W = 32 makes the bitap kernel fail fast
with `PatternLengthTooLarge(32)`, and a pattern of length at most 32
never produces that error (the kernel then returns `Ok`). -/
theorem search_pattern_length_guard (text pattern : List Char) (alphabet : Char → Nat)
    (opts : FuseOptions) :
    (MAX_BITS < pattern.length →
      search text pattern alphabet opts = .error (.patternLengthTooLarge 32)) ∧
    (pattern.length ≤ MAX_BITS → ∃ r, search text pattern alphabet opts = .ok r) := by
  constructor
  · intro h
    unfold search
    rw [if_pos h]
    rfl
  · intro h
    exact ⟨_, search_ok_of_le text pattern alphabet opts h⟩

/-- Witness for `search_pattern_length_guard`: a pattern of 33 characters
errors, a pattern of 1 character returns `Ok`. -/
theorem search_pattern_length_guard_witness :
    (search [] (List.replicate 33 'a') (fun _ => 0) {} =
      .error (.patternLengthTooLarge 32)) ∧
    ∃ r, search ['a'] ['a'] (fun _ => 0) {} = .ok r :=
  ⟨(search_pattern_length_guard [] (List.replicate 33 'a') (fun _ => 0) {}).1 (by decide),
   (search_pattern_length_guard ['a'] ['a'] (fun _ => 0) {}).2 (by decide)⟩

/-- Running the AND loop over a group whose matchers all match (and all
terminate) adds the group's size to the match count and the group's score
sum to the running total. -/
theorem andLoop_all_match (inc : Bool) (t : List Char) :
    ∀ (g : List Matcher), (∀ m ∈ g, (m.search t).isSome) → groupAllMatch t g = true →
    ∀ (idx : List (Nat × Nat)) (n : Nat) (tot : ℚ),
      ∃ p, andLoop inc t g idx n tot = some p ∧
        p.2.1 = n + g.length ∧ p.2.2 = tot + groupScoreSum t g := by
  intro g
  induction g with
  | nil =>
    intro _ _ idx n tot
    exact ⟨(idx, n, tot), rfl, by simp, by simp [groupScoreSum]⟩
  | cons m g' ih =>
    intro hsome hall idx n tot
    obtain ⟨r, hr⟩ := Option.isSome_iff_exists.mp (hsome m (List.mem_cons_self m g'))
    rw [groupAllMatch, List.all_cons] at hall
    have hm : r.is_match = true := by
      have := (Bool.and_eq_true _ _).mp hall |>.1
      rw [hr] at this
      simpa using this
    have hall' : groupAllMatch t g' = true := (Bool.and_eq_true _ _).mp hall |>.2
    have hsome' : ∀ x ∈ g', (x.search t).isSome :=
      fun x hx => hsome x (List.mem_cons_of_mem m hx)
    obtain ⟨p, hp, hn, hs⟩ := ih hsome' hall' (if inc then
        match r.indices with
        | some indices =>
          if m.isMultiMatchType then idx ++ indices
          else match indices with
               | q :: _ => idx ++ [q]
               | [] => idx
        | none => idx
      else idx) (n + 1) (tot + r.score)
    refine ⟨p, ?_, ?_, ?_⟩
    · rw [andLoop, hr]
      simp only [hm, if_true]
      exact hp
    · rw [hn, List.length_cons]
      omega
    · rw [hs]
      have : groupScoreSum t (m :: g') = r.score + groupScoreSum t g' := by
        simp [groupScoreSum, hr]
      rw [this]
      ring

/-- Running the AND loop over a group in which some matcher fails (and all
terminate) zeroes the accumulator, as the source's reset-and-break
does. -/
theorem andLoop_some_fail (inc : Bool) (t : List Char) :
    ∀ (g : List Matcher), (∀ m ∈ g, (m.search t).isSome) → groupAllMatch t g = false →
    ∀ (idx : List (Nat × Nat)) (n : Nat) (tot : ℚ),
      andLoop inc t g idx n tot = some ([], 0, 0) := by
  intro g
  induction g with
  | nil =>
    intro _ hall
    exact absurd hall (by simp [groupAllMatch])
  | cons m g' ih =>
    intro hsome hall idx n tot
    obtain ⟨r, hr⟩ := Option.isSome_iff_exists.mp (hsome m (List.mem_cons_self m g'))
    rw [groupAllMatch, List.all_cons] at hall
    by_cases hm : r.is_match = true
    · have hall' : groupAllMatch t g' = false := by
        rcases Bool.and_eq_false_iff.mp hall with h1 | h2
        · rw [hr] at h1
          simp [hm] at h1
        · exact h2
      rw [andLoop, hr]
      simp only [hm, if_true]
      exact ih (fun x hx => hsome x (List.mem_cons_of_mem m hx)) hall' _ _ _
    · rw [andLoop, hr]
      simp [hm]

/-- The OR loop, started with the zero score total it always carries,
returns on the first non-empty all-matching group with that group's mean
score, and falls through to the no-match result otherwise. -/
theorem orLoop_first_group (inc : Bool) (t : List Char) :
    ∀ (query : List (List Matcher)),
      (∀ g ∈ query, ∀ m ∈ g, (m.search t).isSome) →
      ∃ res, orLoop inc t 0 query = some res ∧
        match query.find? (fun g => !g.isEmpty && groupAllMatch t g) with
        | some g => res.is_match = true ∧ res.score = groupScoreSum t g / (g.length : ℚ)
        | none => res = { is_match := false, score := 1, indices := none } := by
  intro query
  induction query with
  | nil =>
    intro _
    exact ⟨{ is_match := false, score := 1, indices := none }, rfl, by simp⟩
  | cons g rest ih =>
    intro hsome
    have hg := hsome g (List.mem_cons_self g rest)
    have hrest : ∀ x ∈ rest, ∀ m ∈ x, (m.search t).isSome :=
      fun x hx => hsome x (List.mem_cons_of_mem g hx)
    by_cases hp : (!g.isEmpty && groupAllMatch t g) = true
    · have hne : g.isEmpty = false := by
        rcases Bool.and_eq_true _ _ |>.mp hp with ⟨h1, _⟩
        simpa using h1
      have hall : groupAllMatch t g = true := (Bool.and_eq_true _ _).mp hp |>.2
      obtain ⟨p, hand, hn, hs⟩ := andLoop_all_match inc t g hg hall [] 0 0
      have hlen : 0 < g.length := by
        cases g with
        | nil => simp at hne
        | cons a l => simp
      refine ⟨{ is_match := true, score := p.2.2 / (p.2.1 : ℚ),
                indices := if inc then some p.1 else none }, ?_, ?_⟩
      · rw [orLoop, hand]
        have hpos : 0 < p.2.1 := by omega
        simp [hpos]
      · simp only [List.find?_cons, hp]
        refine ⟨trivial, ?_⟩
        rw [hn, hs]
        norm_num
    · have hp' : (!g.isEmpty && groupAllMatch t g) = false := by
        simpa using hp
      have hfind : List.find? (fun g => !g.isEmpty && groupAllMatch t g) (g :: rest) =
          List.find? (fun g => !g.isEmpty && groupAllMatch t g) rest := by
        simp only [List.find?_cons, hp']
      rw [hfind]
      by_cases hemp : g.isEmpty = true
      · have hgnil : g = [] := by
          cases g with
          | nil => rfl
          | cons a l => simp at hemp
        obtain ⟨res, hres, hmatch⟩ := ih hrest
        refine ⟨res, ?_, hmatch⟩
        rw [orLoop, hgnil]
        simpa [andLoop] using hres
      · have hall : groupAllMatch t g = false := by
          rcases Bool.and_eq_false_iff.mp hp' with h1 | h2
          · simp at h1
            exact absurd (by simpa using h1) hemp
          · exact h2
        obtain ⟨res, hres, hmatch⟩ := ih hrest
        refine ⟨res, ?_, hmatch⟩
        rw [orLoop, andLoop_some_fail inc t g hg hall]
        simpa using hres

/-- C4: executing an extended query evaluates the OR groups left to right
and returns on the first AND group in which every matcher reports a
match, scoring it with the arithmetic mean of the matchers' reported
scores (a group must hold at least one matcher to succeed — the source
counts matches and an empty group counts none); later OR groups are not
tried (`List.find?` takes the first); if no group succeeds, the result is
isMatch = false with score 1.0. The hypothesis rules out the diverging
empty-pattern include matcher. -/
theorem extended_or_of_and_groups (stripFn : List Char → List Char)
    (opts : FuseOptions) (query : List (List Matcher)) (text : List Char)
    (hterm : ∀ g ∈ query, ∀ m ∈ g,
      (m.search (normalizeText stripFn opts text)).isSome) :
    ∃ res, ExtendedSearch.searchIn stripFn opts query text = some res ∧
      match query.find? (fun g =>
          !g.isEmpty && groupAllMatch (normalizeText stripFn opts text) g) with
      | some g => res.is_match = true ∧
          res.score = groupScoreSum (normalizeText stripFn opts text) g / (g.length : ℚ)
      | none => res = { is_match := false, score := 1, indices := none } :=
  orLoop_first_group opts.includeMatches (normalizeText stripFn opts text) query hterm

/-- Witness for `extended_or_of_and_groups`: the one-group query
`[=a]` on text "a" matches with mean score 0. -/
theorem extended_or_of_and_groups_witness :
    ∃ res, ExtendedSearch.searchIn id {} [[.exactMatch ['a']]] ['a'] = some res ∧
      match ([[.exactMatch ['a']]] : List (List Matcher)).find? (fun g =>
          !g.isEmpty && groupAllMatch (normalizeText id {} ['a']) g) with
      | some g => res.is_match = true ∧
          res.score = groupScoreSum (normalizeText id {} ['a']) g / (g.length : ℚ)
      | none => res = { is_match := false, score := 1, indices := none } :=
  extended_or_of_and_groups id {} [[.exactMatch ['a']]] ['a'] (by decide)

/-- C5 (amended): the per-token classification tries the eight
matchers' regexes first in all multi (quoted) forms and then in all
single (bare) forms, the first acceptance winning, but in the order the
source fixes: exact, include, prefix-exact, inverse-prefix-exact,
inverse-suffix-exact, suffix-exact, inverse-exact, fuzzy — with
inverse-suffix-exact tried before suffix-exact, unlike the claim's
reading of the §4.8 table; in particular `!x$` is classified as
inverse-suffix-exact with pattern `x`. -/
theorem parse_classification_amended (opts : FuseOptions) (tok : List Char) :
    classifyToken opts tok = rowsClassify (sourceOrderRows opts) tok := by
  unfold classifyToken rowsClassify sourceOrderRows
  cases h1 : ExactMatch.is_multi_match tok with
  | some t => simp [h1, List.findSome?_cons]
  | none =>
    cases h2 : IncludeMatch.is_multi_match tok with
    | some t => simp [h1, h2, List.findSome?_cons]
    | none =>
      cases h3 : PrefixExactMatch.is_multi_match tok with
      | some t => simp [h1, h2, h3, List.findSome?_cons]
      | none =>
        cases h4 : InversePrefixExactMatch.is_multi_match tok with
        | some t => simp [h1, h2, h3, h4, List.findSome?_cons]
        | none =>
          cases h5 : InverseSuffixExactMatch.is_multi_match tok with
          | some t => simp [h1, h2, h3, h4, h5, List.findSome?_cons]
          | none =>
            cases h6 : SuffixExactMatch.is_multi_match tok with
            | some t => simp [h1, h2, h3, h4, h5, h6, List.findSome?_cons]
            | none =>
              cases h7 : InverseExactMatch.is_multi_match tok with
              | some t => simp [h1, h2, h3, h4, h5, h6, h7, List.findSome?_cons]
              | none =>
                cases h8 : FuzzyMatch.is_multi_match tok with
                | some t => simp [h1, h2, h3, h4, h5, h6, h7, h8, List.findSome?_cons]
                | none =>
                  cases h9 : ExactMatch.is_single_match tok with
                  | some t => simp [h1, h2, h3, h4, h5, h6, h7, h8, h9, List.findSome?_cons]
                  | none =>
                    cases h10 : IncludeMatch.is_single_match tok with
                    | some t => simp [h1, h2, h3, h4, h5, h6, h7, h8, h9, h10, List.findSome?_cons]
                    | none =>
                      cases h11 : PrefixExactMatch.is_single_match tok with
                      | some t => simp [h1, h2, h3, h4, h5, h6, h7, h8, h9, h10, h11, List.findSome?_cons]
                      | none =>
                        cases h12 : InversePrefixExactMatch.is_single_match tok with
                        | some t => simp [h1, h2, h3, h4, h5, h6, h7, h8, h9, h10, h11, h12, List.findSome?_cons]
                        | none =>
                          cases h13 : InverseSuffixExactMatch.is_single_match tok with
                          | some t => simp [h1, h2, h3, h4, h5, h6, h7, h8, h9, h10, h11, h12, h13, List.findSome?_cons]
                          | none =>
                            cases h14 : SuffixExactMatch.is_single_match tok with
                            | some t => simp [h1, h2, h3, h4, h5, h6, h7, h8, h9, h10, h11, h12, h13, h14, List.findSome?_cons]
                            | none =>
                              cases h15 : InverseExactMatch.is_single_match tok with
                              | some t => simp [h1, h2, h3, h4, h5, h6, h7, h8, h9, h10, h11, h12, h13, h14, h15, List.findSome?_cons]
                              | none =>
                                cases h16 : FuzzyMatch.is_single_match tok with
                                | some t => simp [h1, h2, h3, h4, h5, h6, h7, h8, h9, h10, h11, h12, h13, h14, h15, h16, List.findSome?_cons]
                                | none => simp [h1, h2, h3, h4, h5, h6, h7, h8, h9, h10, h11, h12, h13, h14, h15, h16, List.findSome?_cons]

/-- C5 is false as stated: on the token `!a$` the source's classifier
(inverse-suffix-exact tried before suffix-exact) yields
inverse-suffix-exact with pattern `a`, while classification in the
claim's order — suffix-exact at position 5, inverse-suffix-exact at 6 —
would yield suffix-exact with pattern `!a`; the two orders disagree on
this token. -/
theorem parse_classification_counterexample :
    classifyToken {} ['!', 'a', '$'] = some (.inverseSuffixExactMatch ['a']) ∧
    rowsClassify (claimOrderRows {}) ['!', 'a', '$'] = some (.suffixExactMatch ['!', 'a']) ∧
    rowsClassify (claimOrderRows {}) ['!', 'a', '$'] ≠ classifyToken {} ['!', 'a', '$'] := by
  refine ⟨by decide, by decide, by decide⟩

/-- C6 is false as stated: `convert_to_explicit` always wraps its input
in a fresh `$and`, so a second application wraps again; on the singleton
query `{a: "x"}` the once- and twice-converted results differ. -/
theorem convert_to_explicit_counterexample :
    convert_to_explicit (convert_to_explicit [("a", Json.str "x")]) ≠
      convert_to_explicit [("a", Json.str "x")] := by
  simp [convert_to_explicit]

/-- C6 (amended): the conversion is idempotent as the parser applies it —
guarded by `needs_explicit_and` (`parse_value` only converts a plain
multi-key map, and the converted form is a one-key `$and` map that never
needs conversion again); the raw `convert_to_explicit` is not idempotent
(see the counterexample). -/
theorem convert_to_explicit_step_idempotent (query : List (String × Json)) :
    convertToExplicitStep (convertToExplicitStep query) = convertToExplicitStep query := by
  unfold convertToExplicitStep
  by_cases h : needs_explicit_and query = true
  · rw [if_pos h]
    have hno : needs_explicit_and (convert_to_explicit query) = false := by
      simp [needs_explicit_and, convert_to_explicit]
    rw [hno]
    simp
  · rw [if_neg h, if_neg h]

/-- Any key `create_key` returns has a positive weight (a declared
non-positive weight panics instead, a missing weight defaults to 1). -/
theorem create_key_weight_pos (k : FuseOptionKey) (key : Key)
    (h : create_key k = .ok key) : 0 < key.weight := by
  cases k with
  | string s =>
    rw [create_key] at h
    rw [Except.ok.injEq] at h
    rw [← h]
    norm_num
  | stringArray arr =>
    rw [create_key] at h
    rw [Except.ok.injEq] at h
    rw [← h]
    norm_num
  | keyObject obj =>
    rw [create_key] at h
    cases hw : obj.weight with
    | none =>
      rw [hw] at h
      dsimp only at h
      rw [Except.ok.injEq] at h
      rw [← h]
      norm_num
    | some w =>
      rw [hw] at h
      dsimp only at h
      by_cases hle : w ≤ 0
      · rw [if_pos hle] at h
        exact absurd h (by simp)
      · rw [if_neg hle] at h
        rw [Except.ok.injEq] at h
        rw [← h]
        simpa using lt_of_not_le hle

/-- Every key the creation loop returns has a positive weight. -/
theorem createKeys_weights_pos :
    ∀ (specs : List FuseOptionKey) (raw : List Key), createKeys specs = .ok raw →
      ∀ key ∈ raw, 0 < key.weight := by
  intro specs
  induction specs with
  | nil =>
    intro raw h key hk
    rw [createKeys, Except.ok.injEq] at h
    rw [← h] at hk
    exact absurd hk (List.not_mem_nil key)
  | cons k ks ih =>
    intro raw h key hk
    rw [createKeys] at h
    cases hck : create_key k with
    | error e =>
      rw [hck] at h
      exact absurd h (by simp [Bind.bind, Except.bind])
    | ok key0 =>
      rw [hck] at h
      cases hcks : createKeys ks with
      | error e =>
        rw [hcks] at h
        exact absurd h (by simp [Bind.bind, Except.bind])
      | ok rest =>
        rw [hcks] at h
        simp only [Bind.bind, Except.bind, pure, Except.pure, Except.ok.injEq] at h
        rw [← h] at hk
        rcases List.mem_cons.mp hk with rfl | hmem
        · exact create_key_weight_pos k key hck
        · exact ih rest hcks key hmem

/-- Dividing every element of a rational list by a constant divides the
sum. -/
theorem list_sum_div (l : List ℚ) (T : ℚ) : (l.map (· / T)).sum = l.sum / T := by
  induction l with
  | nil => simp
  | cons a l ih => simp [add_div, ih]

/-- C7: when the raw key weights have a non-zero total, `KeyStore::new`
stores weights that sum to 1 within 10⁻¹⁰ (exactly 1 in this exact
model); when the total is 0 (only possible for an empty key list, since
every created weight is positive), the weights are left unchanged. -/
theorem keystore_weight_normalisation (specs : List FuseOptionKey) (raw : List Key)
    (h : createKeys specs = .ok raw) :
    ((raw.map Key.weight).sum ≠ 0 →
      ∃ ks, KeyStore.new specs = .ok ks ∧
        |(ks.keys.map Key.weight).sum - 1| ≤ 1 / 10 ^ 10) ∧
    ((raw.map Key.weight).sum = 0 → KeyStore.new specs = .ok { keys := raw }) := by
  have hnew : KeyStore.new specs = .ok { keys := raw.map (fun k =>
      { k with weight := if 0 < (raw.map Key.weight).sum then
          k.weight / (raw.map Key.weight).sum else k.weight }) } := by
    unfold KeyStore.new
    rw [h]
    rfl
  constructor
  · intro hne
    have hpos : 0 < (raw.map Key.weight).sum := by
      rcases eq_or_ne raw [] with rfl | hraw
      · simp at hne
      · refine List.sum_pos _ ?_ (by simpa using hraw)
        intro w hw
        obtain ⟨key, hkey, rfl⟩ := List.mem_map.mp hw
        exact createKeys_weights_pos specs raw h key hkey
    refine ⟨_, hnew, ?_⟩
    have hmap : ((raw.map (fun k =>
        { k with weight := if 0 < (raw.map Key.weight).sum then
            k.weight / (raw.map Key.weight).sum else k.weight })).map Key.weight) =
        (raw.map Key.weight).map (· / (raw.map Key.weight).sum) := by
      rw [List.map_map, List.map_map]
      refine List.map_congr_left ?_
      intro k _
      simp [hpos]
    simp only [hmap, list_sum_div]
    rw [div_self (ne_of_gt hpos)]
    norm_num
  · intro hzero
    rw [hnew, hzero]
    simp only [lt_irrefl, if_false]
    have : (raw.map (fun k => { k with weight := k.weight })) = raw := by
      simp
    rw [this]

/-- Witness for `keystore_weight_normalisation` on the key list
`["a", "b"]`: both weights are created at 1, the total 2 is non-zero,
and the normalised store sums to 1. -/
theorem keystore_weight_normalisation_witness :
    ∃ ks, KeyStore.new [.string "a", .string "b"] = .ok ks ∧
      |(ks.keys.map Key.weight).sum - 1| ≤ 1 / 10 ^ 10 :=
  (keystore_weight_normalisation [.string "a", .string "b"]
    [{ path := ["a"], id := "a", weight := 1, src := "a", get_fn := none },
     { path := ["b"], id := "b", weight := 1, src := "b", get_fn := none }]
    rfl).1 (by norm_num)

/-- C8: the code violates the claim — a key object declaring weight 0
makes `create_key` panic with the message
`Invalid weight (0) for key: 'title'` instead of surfacing
`FuseError::InvalidKeyWeightValue("title")` as an error value (the
`FuseError` variant exists in `error_messages.rs` but key construction
never builds it; `KeyStore::new` cannot return an error at all — its
Rust signature is not a `Result`). -/
theorem create_key_nonpositive_weight_panics :
    create_key (.keyObject { name := .string "title", weight := some 0, get_fn := none }) =
      .error (.invalidWeight 0 "title") := by
  rfl

/-- C9 is false as stated: on the source list `["a", "", "b"]` the index
stores only two records — the empty string at input position 1 is
skipped entirely — and the record built from input position 2 carries
record index 1, not 2. -/
theorem index_positions_counterexample :
    set_source (fun _ => 1) getPath [] [Json.str "a", Json.str "", Json.str "b"] =
      [.string 0 "a" 1, .string 1 "b" 1] := rfl

/-- One `add` grows the record list by one kept record (a non-empty
string or any non-string document) and by nothing otherwise. -/
theorem add_length (normGet : String → ℚ)
    (indexGetFn : List String → Json → Option GetValue) (keys : List Key)
    (recs : List FuseIndexRecord) (d : Json) :
    (FuseIndex.add normGet indexGetFn keys recs d).length =
      recs.length + (if keptDoc d then 1 else 0) := by
  cases d with
  | str s =>
    by_cases hs : s.isEmpty
    · simp [FuseIndex.add, keptDoc, hs]
    · simp [FuseIndex.add, keptDoc, hs]
  | null => simp [FuseIndex.add, keptDoc]
  | bool b => simp [FuseIndex.add, keptDoc]
  | num n => simp [FuseIndex.add, keptDoc]
  | arr items => simp [FuseIndex.add, keptDoc]
  | obj fields => simp [FuseIndex.add, keptDoc]

/-- Folding `add` over documents adds one record per kept document. -/
theorem foldl_add_length (normGet : String → ℚ)
    (indexGetFn : List String → Json → Option GetValue) (keys : List Key) :
    ∀ (docs : List Json) (recs : List FuseIndexRecord),
      (docs.foldl (FuseIndex.add normGet indexGetFn keys) recs).length =
        recs.length + (docs.filter keptDoc).length := by
  intro docs
  induction docs with
  | nil => intro recs; simp
  | cons d ds ih =>
    intro recs
    rw [List.foldl_cons, ih, add_length]
    by_cases hd : keptDoc d
    · simp [List.filter_cons, hd]
      omega
    · simp [List.filter_cons, hd]

/-- One `add` preserves the record-index-equals-position invariant: the
appended record (when any) carries the pre-add length as its index. -/
theorem add_recIdx (normGet : String → ℚ)
    (indexGetFn : List String → Json → Option GetValue) (keys : List Key)
    (recs : List FuseIndexRecord) (d : Json)
    (h : ∀ j r, recs.get? j = some r → r.recIdx = j) :
    ∀ j r, (FuseIndex.add normGet indexGetFn keys recs d).get? j = some r → r.recIdx = j := by
  have happend : ∀ (a : FuseIndexRecord), a.recIdx = recs.length →
      ∀ j r, (recs ++ [a]).get? j = some r → r.recIdx = j := by
    intro a ha j r hjr
    rcases Nat.lt_or_ge j recs.length with hlt | hge
    · rw [List.get?_append hlt] at hjr
      exact h j r hjr
    · rw [List.get?_append_right hge] at hjr
      cases hd : j - recs.length with
      | zero =>
        rw [hd] at hjr
        simp only [List.get?] at hjr
        rw [Option.some.injEq] at hjr
        rw [← hjr, ha]
        omega
      | succ m =>
        rw [hd] at hjr
        simp [List.get?] at hjr
  cases d with
  | str s =>
    by_cases hs : s.isEmpty
    · intro j r hjr
      rw [show FuseIndex.add normGet indexGetFn keys recs (.str s) = recs from by
        simp [FuseIndex.add, hs]] at hjr
      exact h j r hjr
    · intro j r hjr
      rw [show FuseIndex.add normGet indexGetFn keys recs (.str s) =
          recs ++ [.string recs.length s (normGet s)] from by
        simp [FuseIndex.add, hs]] at hjr
      exact happend (.string recs.length s (normGet s)) rfl j r hjr
  | null => exact happend (add_object normGet indexGetFn keys .null recs.length) rfl
  | bool b => exact happend (add_object normGet indexGetFn keys (.bool b) recs.length) rfl
  | num n => exact happend (add_object normGet indexGetFn keys (.num n) recs.length) rfl
  | arr items => exact happend (add_object normGet indexGetFn keys (.arr items) recs.length) rfl
  | obj fields => exact happend (add_object normGet indexGetFn keys (.obj fields) recs.length) rfl

/-- Folding `add` preserves the record-index-equals-position invariant. -/
theorem foldl_add_recIdx (normGet : String → ℚ)
    (indexGetFn : List String → Json → Option GetValue) (keys : List Key) :
    ∀ (docs : List Json) (recs : List FuseIndexRecord),
      (∀ j r, recs.get? j = some r → r.recIdx = j) →
      ∀ j r, (docs.foldl (FuseIndex.add normGet indexGetFn keys) recs).get? j = some r →
        r.recIdx = j := by
  intro docs
  induction docs with
  | nil => intro recs h; exact h
  | cons d ds ih =>
    intro recs h
    rw [List.foldl_cons]
    exact ih _ (add_recIdx normGet indexGetFn keys recs d h)

/-- C9 (amended): index construction stores the documents in input
order, one record per document except empty-string documents, which are
skipped entirely; every stored record's index `i` equals its position in
the record list — so `i` equals the input position only when no
empty-string document precedes it. Non-string documents are always
stored, with zero entries when nothing is extractable (`keptDoc` is true
for every non-string document). -/
theorem index_positions_amended (normGet : String → ℚ)
    (indexGetFn : List String → Json → Option GetValue) (keys : List Key)
    (docs : List Json) :
    (set_source normGet indexGetFn keys docs).length = (docs.filter keptDoc).length ∧
    ∀ j r, (set_source normGet indexGetFn keys docs).get? j = some r → r.recIdx = j := by
  constructor
  · simpa using foldl_add_length normGet indexGetFn keys docs []
  · exact foldl_add_recIdx normGet indexGetFn keys docs []
      (fun j r hjr => absurd hjr (by simp))

/-- Witness for `index_positions_amended` on `["a", "", "b"]` with no
keys: two records are kept and the record at stored position 1 has
index 1. -/
theorem index_positions_amended_witness :
    ((set_source (fun _ => 1) getPath [] [Json.str "a", Json.str "", Json.str "b"]).length =
      ([Json.str "a", Json.str "", Json.str "b"].filter keptDoc).length) ∧
    (FuseIndexRecord.string 1 "b" 1).recIdx = 1 :=
  ⟨(index_positions_amended (fun _ => 1) getPath [] [Json.str "a", Json.str "", Json.str "b"]).1,
   (index_positions_amended (fun _ => 1) getPath [] [Json.str "a", Json.str "", Json.str "b"]).2
     1 (.string 1 "b" 1) rfl⟩

/-- Searching the empty text for a non-empty pattern finds nothing. -/
theorem strFind_nil_of_ne (pattern : List Char) (hp : pattern ≠ []) :
    strFind [] pattern = none := by
  cases pattern with
  | nil => exact absurd rfl hp
  | cons a l => rfl

/-- With the empty pattern, `str::find` succeeds at position 0 of any
suffix. -/
theorem strFind_nil_pattern (hay : List Char) : strFind hay [] = some 0 := by
  unfold strFind
  rw [List.range_succ_eq_map]
  rw [List.find?_cons_of_pos]
  rfl

/-- The include-match loop never terminates on the empty pattern: the
found occurrence sits at the scan position itself and the position never
advances, so every fuel runs out. -/
theorem includeLoop_nil_pattern (text : List Char) :
    ∀ (fuel location : Nat) (acc : List (Nat × Nat)),
      includeLoop text [] fuel location acc = none := by
  intro fuel
  induction fuel with
  | zero => intro _ _; rfl
  | succ f ih =>
    intro location acc
    rw [includeLoop, strFind_nil_pattern]
    simpa using ih _ _

/-- With a non-empty pattern the include-match loop terminates: each
iteration advances the scan position by at least one while consuming one
unit of fuel, and past the end of the text nothing is found. -/
theorem includeLoop_some_of_fuel (text pattern : List Char) (hp : pattern ≠ []) :
    ∀ (fuel location : Nat) (acc : List (Nat × Nat)),
      text.length + 1 ≤ fuel + 1 + location →
      (includeLoop text pattern (fuel + 1) location acc).isSome := by
  intro fuel
  induction fuel with
  | zero =>
    intro location acc hloc
    rw [includeLoop]
    have hdrop : text.drop location = [] := List.drop_eq_nil_of_le (by omega)
    rw [hdrop, strFind_nil_of_ne pattern hp]
    rfl
  | succ f ih =>
    intro location acc hloc
    rw [includeLoop]
    cases hfind : strFind (text.drop location) pattern with
    | none => rfl
    | some index =>
      have hplen : 1 ≤ pattern.length := List.length_pos.mpr hp
      exact ih (location + index + pattern.length) _ (by omega)

/-- C10: for every non-empty pattern, `IncludeMatch::search` terminates
on every text (each iteration after a found occurrence advances the scan
position past it, strictly shrinking the remaining text, so fuel
`|text| + 1` suffices); with the empty pattern the loop never
terminates, whatever the fuel. -/
theorem include_search_termination :
    (∀ (pattern text : List Char), pattern ≠ [] →
      ∃ r, includeSearch pattern text = some r) ∧
    (∀ (text : List Char) (fuel location : Nat) (acc : List (Nat × Nat)),
      includeLoop text [] fuel location acc = none) := by
  constructor
  · intro pattern text hp
    have hsome := includeLoop_some_of_fuel text pattern hp text.length 0 [] (by omega)
    obtain ⟨v, hv⟩ := Option.isSome_iff_exists.mp hsome
    unfold includeSearch
    rw [hv]
    exact ⟨_, rfl⟩
  · exact includeLoop_nil_pattern

/-- Witness for `include_search_termination`: the pattern "a" terminates
on the text "ba". -/
theorem include_search_termination_witness :
    ∃ r, includeSearch ['a'] ['b', 'a'] = some r :=
  include_search_termination.1 ['a'] ['b', 'a'] (by decide)

end Fuse
